import Mathlib

/-
  Verification of the LLM_Project book-recommender repository.

  The development shallowly embeds the repository's pure logic:
    * src/tools.py        — parse_json, make_get_summary_tool
    * src/vectorDB.py     — build_chroma_payload, build_context_from_results
    * src/LLM_Aditional.py — _safe_slug
    * src/main.py         — print_result and the orchestration fragments
      (only_title fallback, tool-argument resolution, report/media control flow)

  Python-side conventions used throughout the embedding:
    * A JSON value decoded by json.loads is modelled by `JsonVal`
      (numbers restricted to integers; float-specific behaviour is not
      exercised by any claim).
    * Python truthiness is `truthy`.
    * A Python dict is modelled as an insertion-ordered association list;
      `dictInsert` mirrors dict assignment (replace in place, else append).
    * Exceptions escaping a function are modelled with `Except PyErr`.
-/

/-- A JSON value as returned by `json.loads` (numbers restricted to
integers; none of the claims exercises float behaviour). -/
inductive JsonVal where
  | str (s : String)
  | num (n : Int)
  | bool (b : Bool)
  | null
  | list (xs : List JsonVal)
  | obj (fields : List (String × JsonVal))

/-- Python truthiness (`bool(v)`) of a JSON value. -/
def truthy : JsonVal → Bool
  | .str s => s ≠ ""
  | .num n => n ≠ 0
  | .bool b => b
  | .null => false
  | .list [] => false
  | .list (_ :: _) => true
  | .obj [] => false
  | .obj (_ :: _) => true

mutual
/-- Python `repr` of a JSON value.  The quoting of strings is modelled
without the escaping of quote characters inside the string, which no
claim exercises. -/
def pyRepr : JsonVal → String
  | .str s => "'" ++ s ++ "'"
  | .num n => toString n
  | .bool b => if b then "True" else "False"
  | .null => "None"
  | .list xs => "[" ++ pyReprList xs ++ "]"
  | .obj fs => "\x7b" ++ pyReprObj fs ++ "\x7d"

/-- Comma-joined `repr`s of the elements of a Python list. -/
def pyReprList : List JsonVal → String
  | [] => ""
  | [x] => pyRepr x
  | x :: rest => pyRepr x ++ ", " ++ pyReprList rest

/-- Comma-joined `key: repr(value)` items of a Python dict. -/
def pyReprObj : List (String × JsonVal) → String
  | [] => ""
  | [(k, v)] => "'" ++ k ++ "': " ++ pyRepr v
  | (k, v) :: rest => "'" ++ k ++ "': " ++ pyRepr v ++ ", " ++ pyReprObj rest
end

/-- Python `str(v)` of a JSON value. -/
def pyStr : JsonVal → String
  | .str s => s
  | v => pyRepr v

/-- `row.get(k)` on a decoded JSON object: `json.loads` keeps the last
binding of a duplicated key, so the lookup returns the last match. -/
def rget (row : List (String × JsonVal)) (k : String) : Option JsonVal :=
  (List.find? (fun p => p.1 == k) row.reverse).map Prod.snd

/-- A hashable Python dict key actually produced by a truthy JSON value:
a string, a number, or a boolean.  Lists and dicts are unhashable and
`None` is falsy, so no other value ever becomes a key in `parse_json`. -/
inductive PKey where
  | str (s : String)
  | num (n : Int)
  | bool (b : Bool)
deriving DecidableEq, Repr

/-- Truthiness of a stored key (`bool(title)` for the values a key can take). -/
def keyTruthy : PKey → Bool
  | .str s => s ≠ ""
  | .num n => n ≠ 0
  | .bool b => b

/-- The key a truthy title value turns into when used as a dict key;
`none` when the value is unhashable (a list or a dict), in which case
`books[title] = ...` raises `TypeError`. -/
def toKey : JsonVal → Option PKey
  | .str s => some (.str s)
  | .num n => some (.num n)
  | .bool b => some (.bool b)
  | .null => none
  | .list _ => none
  | .obj _ => none

/-- One line of the catalog file, represented by what `line.strip()` and
`json.loads(line)` make of it: blank (strip empty, skipped before
decoding), undecodable (`json.loads` raises `JSONDecodeError`), or
decoded to a JSON value. -/
inductive CatalogLine where
  | blank
  | undecodable
  | decoded (v : JsonVal)

/-- Exceptions that can escape `parse_json`. -/
inductive PyErr where
  | attributeError  -- row.get on a decoded non-dict value
  | typeError       -- books[title] with an unhashable (list or dict) title
deriving DecidableEq, Repr

/-- The value stored per title by `parse_json`: `(summary, themes)` where
the summary is `row.get("summary_short")` (Python `None` when the key is
absent, modelled by `JsonVal.null`) and the themes are the coerced list. -/
abbrev PEntry := JsonVal × List JsonVal

/-- The in-memory catalog built by `parse_json`: an insertion-ordered
Python dict from title key to entry. -/
abbrev PBooks := List (PKey × PEntry)

/-- Python dict assignment `d[k] = v`: replace in place when the key is
present, append otherwise. -/
def dictInsert (books : PBooks) (k : PKey) (v : PEntry) : PBooks :=
  match books with
  | [] => [(k, v)]
  | (k', v') :: rest =>
    if k' = k then (k, v) :: rest else (k', v') :: dictInsert rest k v

/-- The themes coercion of `parse_json` (src/tools.py lines 28-30):
`themes = row.get("themes") or []`, then `themes = [str(themes)]` when
the value is not a list. -/
def themesOf (row : List (String × JsonVal)) : List JsonVal :=
  match (match rget row "themes" with
         | some w => if truthy w then w else .list []
         | none => .list []) with
  | .list xs => xs
  | w => [.str (pyStr w)]

/-- The value stored for one surviving record (src/tools.py lines 27-31):
`(row.get("summary_short"), themes)`. -/
def entryOf (row : List (String × JsonVal)) : PEntry :=
  ((rget row "summary_short").getD .null, themesOf row)

/-- The body of `parse_json`'s loop for one line (src/tools.py lines 17-31):
skip blank lines, skip lines raising `JSONDecodeError`, call `.get` on the
decoded value (an `AttributeError` for a non-dict), skip falsy titles,
store `(summary_short, themes)` with the themes coercion
`row.get("themes") or []` / `[str(themes)]` for a non-list. -/
def parseStep (books : PBooks) : CatalogLine → Except PyErr PBooks
  | .blank => .ok books
  | .undecodable => .ok books
  | .decoded v =>
    match v with
    | .obj row =>
      match rget row "title" with
      | none => .ok books
      | some t =>
        if truthy t then
          match toKey t with
          | some k => .ok (dictInsert books k (entryOf row))
          | none => .error .typeError
        else .ok books
    | _ => .error .attributeError

/-- The loop of `parse_json` over the lines of the file, threading the
accumulated dict and propagating the first raised exception. -/
def parseLines (books : PBooks) : List CatalogLine → Except PyErr PBooks
  | [] => .ok books
  | l :: ls =>
    match parseStep books l with
    | .ok b => parseLines b ls
    | .error e => .error e

/-- `parse_json` (src/tools.py lines 13-32) applied to the lines of an
opened catalog file. -/
def parse_json (lines : List CatalogLine) : Except PyErr PBooks :=
  parseLines [] lines

/-- The dict `parse_json` returns when it does not raise (`[]` otherwise;
only used under a hypothesis ruling the error case out). -/
def okBooks (lines : List CatalogLine) : PBooks :=
  match parse_json lines with
  | .ok b => b
  | .error _ => []

/-- A line on which `parse_json`'s loop body cannot raise: anything but a
line decoding to a non-dict JSON value or to a dict whose truthy title
value is unhashable. -/
def goodLine : CatalogLine → Bool
  | .blank => true
  | .undecodable => true
  | .decoded (.obj row) =>
    match rget row "title" with
    | some t => !truthy t || (toKey t).isSome
    | none => true
  | .decoded _ => false

/-- Whether a catalog line is blank (`line.strip()` empty). -/
def isBlank : CatalogLine → Bool
  | .blank => true
  | _ => false

/-- The number of non-blank lines of the file. -/
def countNonBlank (lines : List CatalogLine) : Nat :=
  (lines.filter (fun l => !isBlank l)).length

/-
  Typed layer: the components below operate on a catalog of the declared
  type `BooksDict = Dict[str, Tuple[Optional[str], List[str]]]`
  (src/tools.py line 11, src/vectorDB.py line 3), modelled as an
  insertion-ordered association list with string keys.
-/

/-- An entry of the typed catalog: `(summary_short, themes)`. -/
abbrev Entry := Option String × List String

/-- The typed catalog mapping (`BooksDict`), in dict iteration order. -/
abbrev BooksDict := List (String × Entry)

/-- `books.get(title)` on the typed catalog (Python dict keys are unique,
so the first match is the binding). -/
def lookupBooks (books : BooksDict) (title : String) : Option Entry :=
  match books with
  | [] => none
  | (t, e) :: rest => if t = title then some e else lookupBooks rest title

/-- `make_get_summary_tool` (src/tools.py lines 34-39): a closure over the
catalog returning `(entry[0] or "")` for a known title and `""` otherwise. -/
def make_get_summary_tool (books : BooksDict) : String → String :=
  fun title =>
    match lookupBooks books title with
    | some entry => entry.1.getD ""
    | none => ""

/-- The metadata record `{"title": ..., "themes": ...}` attached to one
vector record (src/vectorDB.py line 12). -/
structure Meta where
  title : String
  themes : String
deriving DecidableEq, Repr

/-- Python `sep.join(parts)`. -/
def joinSep (sep : String) : List String → String
  | [] => ""
  | p :: ps => ps.foldl (fun acc q => acc ++ sep ++ q) p

/-- `build_chroma_payload` (src/vectorDB.py lines 5-12): one id, one
document (`summary or ""`) and one metadata record per catalog entry, in
dict iteration order. -/
def build_chroma_payload (books : BooksDict) :
    List String × List String × List Meta :=
  (books.map (fun b => b.1),
   books.map (fun b => b.2.1.getD ""),
   books.map (fun b => ⟨b.1, joinSep ", " b.2.2⟩))

/-- A retrieved hit's metadata dict, represented by its `"title"` key —
the only key `build_context_from_results` and the fallback computation
read (`none` models a dict without that key). -/
structure RMeta where
  title? : Option String
deriving DecidableEq, Repr

/-- The raw vector-store query response: the `"documents"` and
`"metadatas"` keys, each either absent/`None` or a list of per-query
lists. -/
structure QueryResults where
  documents : Option (List (List String))
  metadatas : Option (List (List RMeta))

/-- `(results.get(key) or [[]])[0]`: the first per-query list, with an
absent or falsy (empty) outer list replaced by `[[]]` first. -/
def firstList (o : Option (List (List α))) : List α :=
  match o with
  | none => []
  | some [] => []
  | some (xs :: _) => xs

/-- The stanza rendered for one retained hit
(src/vectorDB.py lines 20-21): `m.get("title", "Unknown")` and the
document, as the f-string `"Title: ...\nSummary: ..."`. -/
def stanza (d : String) (m : RMeta) : String :=
  "Title: " ++ m.title?.getD "Unknown" ++ "\nSummary: " ++ d

/-- `build_context_from_results` (src/vectorDB.py lines 15-23): zip the
first documents list with the first metadatas list, keep the first `k`
pairs, render each as a stanza and join with a blank line.  The Python
`k` is a nonnegative int in every call (`TOP_K = 1`); the slice `[:k]`
for a nonnegative `k` is `List.take`. -/
def build_context_from_results (results : QueryResults) (k : Nat) : String :=
  let docs := firstList results.documents
  let metas := firstList results.metadatas
  let parts := ((List.zip docs metas).take k).map (fun dm => stanza dm.1 dm.2)
  joinSep "\n\n" parts

/-
  src/LLM_Aditional.py — `_safe_slug`.
-/

/-- A character kept by the slug regex: ASCII alphanumerics, underscore
and hyphen (`[^a-zA-Z0-9_-]` is replaced). -/
def allowedChar (c : Char) : Bool :=
  c.isAlpha || c.isDigit || c == '_' || c == '-'

/-- `re.sub(r"[^a-zA-Z0-9_-]+", "_", s)` over the character list: each
maximal run of disallowed characters becomes a single underscore.  The
flag records whether the previous character was part of such a run. -/
def collapseAux : Bool → List Char → List Char
  | _, [] => []
  | inRun, c :: rest =>
    if allowedChar c then c :: collapseAux false rest
    else if inRun then collapseAux true rest
    else '_' :: collapseAux true rest

/-- `l.dropWhile p` restated for trailing characters: remove the maximal
trailing run satisfying `p`. -/
def dropTrail (p : Char → Bool) : List Char → List Char
  | [] => []
  | c :: rest =>
    let r := dropTrail p rest
    if r = [] && p c then [] else c :: r

/-- Python `s.strip("_")` on the character list: drop the leading and the
trailing run of underscores. -/
def stripUnderscores (l : List Char) : List Char :=
  dropTrail (fun c => c == '_') (l.dropWhile (fun c => c == '_'))

/-- `_safe_slug` (src/LLM_Aditional.py lines 8-9):
`re.sub(r"[^a-zA-Z0-9_-]+", "_", s).strip("_")[:60] or "output"`. -/
def _safe_slug (s : String) : String :=
  let r := (stripUnderscores (collapseAux false s.toList)).take 60
  if r = [] then "output" else String.mk r

/-
  src/main.py — the pure fragments of the orchestrator.
-/

/-- The distinct truthy titles of the retrieved hits' metadata
(src/main.py line 116): the set comprehension
`{m.get("title") for m in metas_list if m.get("title")}`, modelled as a
deduplicated list. -/
def validTitles (metas_list : List RMeta) : List String :=
  (metas_list.filterMap (fun m =>
    match m.title? with
    | some t => if t = "" then none else some t
    | none => none)).dedup

/-- `only_title` (src/main.py line 117): the unique valid title when the
set has exactly one element, else `None`. -/
def onlyTitleOf (metas_list : List RMeta) : Option String :=
  if (validTitles metas_list).length = 1 then (validTitles metas_list).head?
  else none

/-- Python `s.strip()` over the character list: drop the leading and the
trailing run of whitespace (the ASCII whitespace characters; the further
Unicode whitespace Python also strips is not exercised by any claim). -/
def pyStrip (s : String) : String :=
  String.mk (dropTrail Char.isWhitespace (s.toList.dropWhile Char.isWhitespace))

/-- Resolution of the tool call's `title` argument (src/main.py lines
177-179): `(args.get("title") or "").strip()`, then the remembered
`only_title` is substituted when the stripped argument is empty and the
fallback is truthy.  `argsTitle` is the parsed string value of the
`"title"` key (`none` when the key is absent). -/
def resolveTitleArg (argsTitle : Option String) (onlyTitle : Option String) :
    String :=
  let title_arg := pyStrip (argsTitle.getD "")
  if title_arg = "" then
    match onlyTitle with
    | some t => if t = "" then title_arg else t
    | none => title_arg
  else title_arg

/-- Execution of the tool call (src/main.py lines 181-183): the local
summary function runs only when the requested name is
`get_summary_by_title`, on the resolved title argument
(`tool_func(title_arg) or ""` is the identity on the returned string). -/
def runToolCall (fnName : String) (argsTitle : Option String)
    (onlyTitle : Option String) (books : BooksDict) : String :=
  let title_arg := resolveTitleArg argsTitle onlyTitle
  if fnName = "get_summary_by_title" then make_get_summary_tool books title_arg
  else ""

/-- The final recommendation dict, represented by the four string-valued
keys `print_result` and the media gate read (`none` models an absent
key; Python `None`-valued keys, which no claim exercises, behave like
absent ones in every read except the bare `data.get("verbal", "")`). -/
structure RecData where
  status : Option String
  title : Option String
  verbal : Option String
  blurb : Option String
deriving DecidableEq, Repr

/-- `print_result` (src/main.py lines 58-72) as the list of strings the
`print` calls emit (each `print("\nBot>", x)` joins its arguments with a
space). -/
def print_result (data : RecData) (books : BooksDict) : List String :=
  match data.status with
  | some "ok" =>
    let botLine := "\nBot> " ++
      (match data.verbal with
       | some v => if v = "" then data.blurb.getD "" else v
       | none => data.blurb.getD "")
    let summaryLines :=
      match data.title with
      | some t =>
        if t = "" then []
        else
          match lookupBooks books t with
          | some entry =>
            let s := entry.1.getD ""
            if s = "" then [] else ["\n[Summary]\n" ++ s]
          | none => []
      | none => []
    botLine :: summaryLines
  | some "no_match" => ["\nBot> I couldn't match anything in the context."]
  | some "refuse" => ["\nBot> I can’t help with that request."]
  | some _ => ["\nBot> " ++ data.verbal.getD ""]
  | none => ["\nBot> " ++ data.verbal.getD ""]

/-- Observable events of the tail of `main` relevant to the report and
media steps. -/
inductive Event where
  | printedRaw (s : String)        -- the "Raw response:" dump before a return
  | printedResult (lines : List String)  -- the print_result output
  | imagePrompt                    -- the Y/N question for the cover image
  | ttsPrompt                      -- the Y/N question for the TTS clip
deriving DecidableEq, Repr

/-- The outcome of the first model call as `main` classifies it
(src/main.py lines 136-164): a direct final JSON dict with a truthy
`status` (the escape hatch), an extracted function call, or neither. -/
inductive FirstOutcome where
  | directJson (d : RecData)
  | toolCall (fnName : String) (argsTitle : Option String)
  | neither (raw : String)

/-- The outcome of parsing the second model call's text (src/main.py
lines 197-201): a decoded dict, or a `JSONDecodeError` with the raw
text. -/
inductive FinalOutcome where
  | parsed (d : RecData)
  | unparseable (raw : String)

/-- The final recommendation the run ends up with, when any. -/
def finalDataOf : FirstOutcome → FinalOutcome → Option RecData
  | .directJson d, _ => some d
  | .toolCall _ _, .parsed d => some d
  | .toolCall _ _, .unparseable _ => none
  | .neither _, _ => none

/-- The media gate (src/main.py line 207):
`final_data and final_data.get("status") == "ok" and final_data.get("title")`
(a dict with a `status` key is nonempty, so its truthiness is subsumed). -/
def mediaGuard (d : RecData) : Bool :=
  d.status == some "ok" &&
    (match d.title with
     | some t => t ≠ ""
     | none => false)

/-- The tail of `main` after the first model call (src/main.py lines
136-228) as an event trace: no tool call and no direct JSON prints the
raw text and returns; an unparseable final output prints the raw text
and returns; otherwise the result is printed and the two media prompts
are reached exactly when the media gate holds. -/
def runSession (first : FirstOutcome) (second : FinalOutcome)
    (books : BooksDict) : List Event :=
  match first with
  | .neither raw => [.printedRaw raw]
  | .directJson d =>
    .printedResult (print_result d books) ::
      (if mediaGuard d then [.imagePrompt, .ttsPrompt] else [])
  | .toolCall _ _ =>
    match second with
    | .unparseable raw => [.printedRaw raw]
    | .parsed d =>
      .printedResult (print_result d books) ::
        (if mediaGuard d then [.imagePrompt, .ttsPrompt] else [])

/-
  Shared helper lemmas.
-/

/-- Zipping ignores the unpaired tail of a longer left list. -/
theorem zip_extra_left {α β : Type} (ds : List α) (ms : List β) (extra : List α)
    (h : ds.length = ms.length) : (ds ++ extra).zip ms = ds.zip ms := by
  induction ds generalizing ms with
  | nil =>
    cases ms with
    | nil => simp [List.zip_nil_right]
    | cons m ms => simp at h
  | cons d ds ih =>
    cases ms with
    | nil => simp at h
    | cons m ms =>
      simp only [List.cons_append, List.zip_cons_cons, List.cons.injEq]
      exact ⟨trivial, ih ms (by simpa using h)⟩

/-- Zipping ignores the unpaired tail of a longer right list. -/
theorem zip_extra_right {α β : Type} (ds : List α) (ms : List β) (extra : List β)
    (h : ds.length = ms.length) : ds.zip (ms ++ extra) = ds.zip ms := by
  induction ds generalizing ms with
  | nil => simp
  | cons d ds ih =>
    cases ms with
    | nil => simp at h
    | cons m ms =>
      simp only [List.cons_append, List.zip_cons_cons, List.cons.injEq]
      exact ⟨trivial, ih ms (by simpa using h)⟩

/-- A concrete two-entry catalog used by several witnesses. -/
def books0 : BooksDict :=
  [("Dune", (some "A desert planet saga.", ["scifi"])),
   ("Hobbit", (none, []))]

/-- C2: for every catalog mapping, `build_chroma_payload` returns three
sequences of equal length, each equal to the catalog's size, and for
every index the id is the entry's title, the document its summary (empty
string when absent) and the metadata the record of the title and the
themes joined by ", ", in the mapping's iteration order with no
filtering or reordering. -/
theorem build_chroma_payload_c2 (books : BooksDict) :
    (build_chroma_payload books).1.length = books.length
  ∧ (build_chroma_payload books).2.1.length = books.length
  ∧ (build_chroma_payload books).2.2.length = books.length
  ∧ ∀ i (h : i < books.length),
      (build_chroma_payload books).1.getD i "" = (books.get ⟨i, h⟩).1
    ∧ (build_chroma_payload books).2.1.getD i ""
        = (books.get ⟨i, h⟩).2.1.getD ""
    ∧ (build_chroma_payload books).2.2.getD i ⟨"", ""⟩
        = ⟨(books.get ⟨i, h⟩).1, joinSep ", " (books.get ⟨i, h⟩).2.2⟩ := by
  refine ⟨by simp [build_chroma_payload], by simp [build_chroma_payload],
    by simp [build_chroma_payload], ?_⟩
  intro i h
  have hsome : books[i]? = some (books.get ⟨i, h⟩) := by
    simp [List.getElem?_eq_getElem h, List.get_eq_getElem]
  refine ⟨?_, ?_, ?_⟩ <;>
    simp [build_chroma_payload, List.getD_eq_getElem?_getD, List.getElem?_map,
      hsome]

/-- C2 witness: the payload of a concrete two-entry catalog. -/
theorem build_chroma_payload_c2_witness :
    (build_chroma_payload books0).1.length = books0.length
  ∧ (build_chroma_payload books0).1.getD 0 "" = "Dune"
  ∧ (build_chroma_payload books0).2.1.getD 0 "" = "A desert planet saga."
  ∧ (build_chroma_payload books0).2.2.getD 0 ⟨"", ""⟩ = ⟨"Dune", "scifi"⟩ := by
  have h := build_chroma_payload_c2 books0
  have h0 := h.2.2.2 0 (by decide)
  exact ⟨h.1, by rw [h0.1]; rfl, by rw [h0.2.1]; rfl, by rw [h0.2.2]; rfl⟩

/-- C3: `build_context_from_results` with `k = 1` and exactly one hit
produces exactly one "Title: X\nSummary: Y" stanza (for the single Dune
hit, exactly "Title: Dune\nSummary: A desert planet saga."); with zero
hits it produces the empty string; and when `k` is at least the number
of available hits it emits a stanza for every available hit, joined by a
blank line (and, being total, never raises). -/
theorem build_context_c3 :
    (∀ d m, build_context_from_results ⟨some [[d]], some [[m]]⟩ 1 = stanza d m)
  ∧ (build_context_from_results
       ⟨some [["A desert planet saga."]], some [[⟨some "Dune"⟩]]⟩ 1
       = "Title: Dune\nSummary: A desert planet saga.")
  ∧ (∀ k, build_context_from_results ⟨some [[]], some [[]]⟩ k = "")
  ∧ (∀ k, build_context_from_results ⟨none, none⟩ k = "")
  ∧ (∀ k, build_context_from_results ⟨some [], some []⟩ k = "")
  ∧ (∀ (docs : List String) (metas : List RMeta) k, docs.length ≤ k →
       build_context_from_results ⟨some [docs], some [metas]⟩ k
         = joinSep "\n\n" ((docs.zip metas).map (fun dm => stanza dm.1 dm.2))) := by
  refine ⟨fun d m => rfl, rfl, ?_, ?_, ?_, ?_⟩
  · intro k; simp [build_context_from_results, firstList, joinSep]
  · intro k; simp [build_context_from_results, firstList, joinSep]
  · intro k; simp [build_context_from_results, firstList, joinSep]
  · intro docs metas k hk
    have hlen : (docs.zip metas).length ≤ k := by
      calc (docs.zip metas).length = min docs.length metas.length :=
            List.length_zip docs metas
        _ ≤ docs.length := Nat.min_le_left _ _
        _ ≤ k := hk
    simp only [build_context_from_results, firstList,
      List.take_of_length_le hlen]

/-- C3 witness: the Dune instance and a two-hit instance with `k` larger
than the number of hits. -/
theorem build_context_c3_witness :
    build_context_from_results
      ⟨some [["A desert planet saga."]], some [[⟨some "Dune"⟩]]⟩ 1
      = "Title: Dune\nSummary: A desert planet saga."
  ∧ build_context_from_results ⟨some [["a", "b"]],
      some [[⟨some "A"⟩, ⟨some "B"⟩]]⟩ 5
      = joinSep "\n\n"
          ((["a", "b"].zip [RMeta.mk (some "A"), RMeta.mk (some "B")]).map
            (fun dm => stanza dm.1 dm.2))
  ∧ build_context_from_results ⟨some [[]], some [[]]⟩ 1 = "" :=
  ⟨build_context_c3.2.1,
   build_context_c3.2.2.2.2.2 ["a", "b"] [⟨some "A"⟩, ⟨some "B"⟩] 5
     (by decide),
   build_context_c3.2.2.1 1⟩

/-- C10: `build_context_from_results` is total on malformed inputs: the
retained documents and metadata lists are paired positionally with the
unpaired tail of the longer list silently dropped, and a hit whose
metadata lacks a "title" key is rendered with the literal placeholder
"Title: Unknown". -/
theorem build_context_c10 :
    (∀ (ds extra : List String) (ms : List RMeta) k, ds.length = ms.length →
       build_context_from_results ⟨some [ds ++ extra], some [ms]⟩ k
         = build_context_from_results ⟨some [ds], some [ms]⟩ k)
  ∧ (∀ (ds : List String) (ms extra : List RMeta) k, ds.length = ms.length →
       build_context_from_results ⟨some [ds], some [ms ++ extra]⟩ k
         = build_context_from_results ⟨some [ds], some [ms]⟩ k)
  ∧ (∀ d k, 1 ≤ k →
       build_context_from_results ⟨some [[d]], some [[⟨none⟩]]⟩ k
         = "Title: Unknown\nSummary: " ++ d) := by
  refine ⟨?_, ?_, ?_⟩
  · intro ds extra ms k h
    simp only [build_context_from_results, firstList, zip_extra_left ds ms extra h]
  · intro ds ms extra k h
    simp only [build_context_from_results, firstList, zip_extra_right ds ms extra h]
  · intro d k hk
    have h1 : ([d].zip [RMeta.mk none]).length ≤ k := by simpa using hk
    simp only [build_context_from_results, firstList,
      List.take_of_length_le h1]
    rfl

/-- C10 witness: a longer documents list collapses to the paired part,
and a missing title key renders as "Unknown". -/
theorem build_context_c10_witness :
    build_context_from_results ⟨some [["x", "y"]], some [[⟨some "T"⟩]]⟩ 2
      = build_context_from_results ⟨some [["x"]], some [[⟨some "T"⟩]]⟩ 2
  ∧ build_context_from_results ⟨some [["d"]], some [[⟨none⟩]]⟩ 1
      = "Title: Unknown\nSummary: " ++ "d" :=
  ⟨build_context_c10.1 ["x"] ["y"] [⟨some "T"⟩] 2 (by decide),
   build_context_c10.2.2 "d" 1 (by decide)⟩
/-- Under distinct keys, `books.get(t)` finds exactly the binding of `t`. -/
theorem lookupBooks_of_mem (books : BooksDict)
    (hnd : (books.map Prod.fst).Nodup) :
    ∀ t e, (t, e) ∈ books → lookupBooks books t = some e := by
  induction books with
  | nil => intro t e h; simp at h
  | cons b rest ih =>
    intro t e h
    obtain ⟨t0, e0⟩ := b
    rcases List.mem_cons.mp h with h0 | h0
    · obtain ⟨h1, h2⟩ := Prod.mk.injEq .. ▸ h0
      simp [lookupBooks, h1.symm, h2]
    · have hne : t0 ≠ t := by
        intro hEq
        have : t ∈ rest.map Prod.fst :=
          List.mem_map.mpr ⟨(t, e), h0, rfl⟩
        rw [← hEq] at this
        exact (List.nodup_cons.mp (by simpa using hnd)).1 this
      simp only [lookupBooks, if_neg hne]
      exact ih (List.nodup_cons.mp (by simpa using hnd)).2 t e h0

/-- An absent key makes `books.get(t)` return `None`. -/
theorem lookupBooks_of_not_mem (books : BooksDict) :
    ∀ t, t ∉ books.map Prod.fst → lookupBooks books t = none := by
  induction books with
  | nil => intro t _; rfl
  | cons b rest ih =>
    intro t h
    obtain ⟨t0, e0⟩ := b
    have hne : t0 ≠ t := fun hEq => h (by simp [hEq])
    simp only [lookupBooks, if_neg hne]
    exact ih t (fun hmem => h (by simp [hmem]))

/-- ASCII lowering of one character, used only to state that a title may
differ from a stored one only in case. -/
def lowerChar (c : Char) : Char :=
  if c.isUpper then Char.ofNat (c.toNat + 32) else c

/-- Case-insensitive comparison of two titles. -/
def eqIgnoreCase (a b : String) : Bool :=
  a.toList.map lowerChar == b.toList.map lowerChar

/-- C4: the summary tool built over a catalog returns the empty string
for every title absent from the catalog; for a stored title it returns
the stored summary (empty string when the catalog stored none); and the
lookup being exact match with no case-folding, a case-variant that is
not itself a stored title yields the empty string. -/
theorem make_get_summary_tool_c4 (books : BooksDict)
    (hnd : (books.map Prod.fst).Nodup) :
    (∀ t, t ∉ books.map Prod.fst → make_get_summary_tool books t = "")
  ∧ (∀ t s th, (t, (s, th)) ∈ books →
       make_get_summary_tool books t = s.getD "")
  ∧ (∀ t u, t ∈ books.map Prod.fst → u ∉ books.map Prod.fst →
       eqIgnoreCase u t = true → make_get_summary_tool books u = "") := by
  refine ⟨?_, ?_, ?_⟩
  · intro t h
    simp [make_get_summary_tool, lookupBooks_of_not_mem books t h]
  · intro t s th h
    simp [make_get_summary_tool, lookupBooks_of_mem books hnd t (s, th) h]
  · intro t u _ hu _
    simp [make_get_summary_tool, lookupBooks_of_not_mem books u hu]

/-- C4 witness: lookups in a concrete catalog — an absent title, a
stored title, and a case-variant of a stored title. -/
theorem make_get_summary_tool_c4_witness :
    make_get_summary_tool books0 "Missing" = ""
  ∧ make_get_summary_tool books0 "Dune" = (some "A desert planet saga.").getD ""
  ∧ make_get_summary_tool books0 "dune" = "" := by
  have h := make_get_summary_tool_c4 books0 (by decide)
  exact ⟨h.1 "Missing" (by decide),
         h.2.1 "Dune" (some "A desert planet saga.") ["scifi"] (by decide),
         h.2.2 "Dune" "dune" (by decide) (by decide) (by decide)⟩

/-- C8: retrieval metadata collapsing to exactly one distinct truthy
title is remembered as the fallback, zero or several distinct titles
leave no fallback; the parsed (stripped) title argument is what invokes
the summary tool, except that an empty argument is replaced by the
remembered fallback, and stays empty when there is none. -/
theorem title_resolution_c8 :
    (∀ metas t, validTitles metas = [t] → onlyTitleOf metas = some t)
  ∧ (∀ metas, (validTitles metas).length ≠ 1 → onlyTitleOf metas = none)
  ∧ (∀ a t, pyStrip ((a : Option String).getD "") = "" → t ≠ "" →
       resolveTitleArg a (some t) = t)
  ∧ (∀ a, pyStrip ((a : Option String).getD "") = "" →
       resolveTitleArg a none = "")
  ∧ (∀ a only, pyStrip ((a : Option String).getD "") ≠ "" →
       resolveTitleArg a only = pyStrip (a.getD ""))
  ∧ (∀ a only books, runToolCall "get_summary_by_title" a only books
       = make_get_summary_tool books (resolveTitleArg a only))
  ∧ (∀ fn a only books, fn ≠ "get_summary_by_title" →
       runToolCall fn a only books = "") := by
  refine ⟨?_, ?_, ?_, ?_, ?_, ?_, ?_⟩
  · intro metas t h; simp [onlyTitleOf, h]
  · intro metas h; simp [onlyTitleOf, h]
  · intro a t h ht; simp [resolveTitleArg, h, ht]
  · intro a h; simp [resolveTitleArg, h]
  · intro a only h; simp [resolveTitleArg, h]
  · intro a only books; rfl
  · intro fn a only books h; simp [runToolCall, h]

/-- C8 witness: metadata collapsing to the single title "Dune" feeds the
fallback into an empty tool argument, the tool runs on the resolved
title, and two distinct titles leave no fallback. -/
theorem title_resolution_c8_witness :
    onlyTitleOf [⟨some "Dune"⟩, ⟨some "Dune"⟩, ⟨none⟩] = some "Dune"
  ∧ resolveTitleArg (some "  ") (some "Dune") = "Dune"
  ∧ resolveTitleArg (some "  ") none = ""
  ∧ resolveTitleArg (some " Dune ") (some "Other")
      = pyStrip ((some " Dune " : Option String).getD "")
  ∧ runToolCall "get_summary_by_title" (some "  ")
        (onlyTitleOf [⟨some "Dune"⟩]) books0
      = make_get_summary_tool books0
          (resolveTitleArg (some "  ") (onlyTitleOf [⟨some "Dune"⟩]))
  ∧ onlyTitleOf [⟨some "Dune"⟩, ⟨some "Hobbit"⟩] = none :=
  ⟨title_resolution_c8.1 [⟨some "Dune"⟩, ⟨some "Dune"⟩, ⟨none⟩] "Dune" (by decide),
   title_resolution_c8.2.2.1 (some "  ") "Dune" (by decide) (by decide),
   title_resolution_c8.2.2.2.1 (some "  ") (by decide),
   title_resolution_c8.2.2.2.2.1 (some " Dune ") (some "Other") (by decide),
   title_resolution_c8.2.2.2.2.2.1 (some "  ") (onlyTitleOf [⟨some "Dune"⟩]) books0,
   title_resolution_c8.2.1 [⟨some "Dune"⟩, ⟨some "Hobbit"⟩] (by decide)⟩

/-- C6: the report step branches on `status`: "ok" prints the verbal (or,
when the verbal is absent or empty, the blurb) text and, when the
recommended title is a key of the local catalog with a non-empty stored
summary, also prints that stored summary; "ok" with a title absent from
the catalog omits the summary line and raises nothing; "no_match" prints
exactly the fixed apology; "refuse" prints the fixed refusal; any other
or missing status prints the free text of the `verbal` field (empty
when absent). -/
theorem print_result_c6 (d : RecData) (books : BooksDict) :
    (d.status = some "ok" → ∀ v, d.verbal = some v → v ≠ "" →
       (print_result d books).head? = some ("\nBot> " ++ v))
  ∧ (d.status = some "ok" → (d.verbal = none ∨ d.verbal = some "") →
       (print_result d books).head? = some ("\nBot> " ++ d.blurb.getD ""))
  ∧ (d.status = some "ok" → ∀ t s th, d.title = some t → t ≠ "" →
       lookupBooks books t = some (s, th) → s.getD "" ≠ "" →
       "\n[Summary]\n" ++ s.getD "" ∈ print_result d books)
  ∧ (d.status = some "ok" → ∀ t, d.title = some t →
       lookupBooks books t = none →
       (print_result d books).length = 1)
  ∧ (d.status = some "no_match" →
       print_result d books = ["\nBot> I couldn't match anything in the context."])
  ∧ (d.status = some "refuse" →
       print_result d books = ["\nBot> I can’t help with that request."])
  ∧ (∀ st, d.status = some st → st ≠ "ok" → st ≠ "no_match" → st ≠ "refuse" →
       print_result d books = ["\nBot> " ++ d.verbal.getD ""])
  ∧ (d.status = none →
       print_result d books = ["\nBot> " ++ d.verbal.getD ""]) := by
  obtain ⟨st, ti, ve, bl⟩ := d
  refine ⟨?_, ?_, ?_, ?_, ?_, ?_, ?_, ?_⟩
  · intro hst v hv hne
    simp only at hst hv
    subst hst; subst hv
    simp [print_result, hne]
  · intro hst hv
    simp only at hst
    subst hst
    rcases hv with hv | hv <;> (simp only at hv; subst hv; simp [print_result])
  · intro hst t s th ht hte hl hs
    simp only at hst ht
    subst hst; subst ht
    simp [print_result, hte, hl, hs]
  · intro hst t ht hl
    simp only at hst ht
    subst hst; subst ht
    by_cases hte : t = "" <;> simp [print_result, hte, hl]
  · intro hst; simp only at hst; subst hst; rfl
  · intro hst; simp only at hst; subst hst; rfl
  · intro st2 hst h1 h2 h3
    simp only at hst
    subst hst
    unfold print_result
    split
    next heq => exact absurd (by simpa using heq) h1
    next heq => exact absurd (by simpa using heq) h2
    next heq => exact absurd (by simpa using heq) h3
    next => rfl
    next heq => exact absurd heq (by simp)
  · intro hst; simp only at hst; subst hst; rfl

/-- C6 witness: concrete recommendations against the concrete catalog —
an "ok" with a known title prints its stored summary, an "ok" with an
unknown title prints only the one line, "no_match" prints the apology,
and an unrecognized status prints the verbal text. -/
theorem print_result_c6_witness :
    "\n[Summary]\n" ++ (some "A desert planet saga." : Option String).getD ""
        ∈ print_result ⟨some "ok", some "Dune", some "V", some "B"⟩ books0
  ∧ (print_result ⟨some "ok", some "Zelda", some "V", some "B"⟩ books0).length = 1
  ∧ print_result ⟨some "no_match", none, none, none⟩ books0
      = ["\nBot> I couldn't match anything in the context."]
  ∧ print_result ⟨some "weird", none, some "free text", none⟩ books0
      = ["\nBot> " ++ (some "free text" : Option String).getD ""] := by
  refine ⟨?_, ?_, ?_, ?_⟩
  · exact (print_result_c6 ⟨some "ok", some "Dune", some "V", some "B"⟩ books0).2.2.1
      rfl "Dune" (some "A desert planet saga.") ["scifi"] rfl (by decide)
      (by decide) (by decide)
  · exact (print_result_c6 ⟨some "ok", some "Zelda", some "V", some "B"⟩ books0).2.2.2.1
      rfl "Zelda" rfl (by decide)
  · exact (print_result_c6 ⟨some "no_match", none, none, none⟩ books0).2.2.2.2.1 rfl
  · exact (print_result_c6 ⟨some "weird", none, some "free text", none⟩ books0).2.2.2.2.2.2.1
      "weird" rfl (by decide) (by decide) (by decide)

/-- C7: in every run, the media prompts are reached only when the final
recommendation's status is "ok" and a non-empty title is present; when
the first response yields neither direct JSON nor a tool call, or when
the final model output does not parse, the run prints the raw text
verbatim and terminates with no media prompt; and a "no_match" final
result never leads to a media prompt. -/
theorem media_gate_c7 (first : FirstOutcome) (second : FinalOutcome)
    (books : BooksDict) :
    (∀ e, (e = Event.imagePrompt ∨ e = Event.ttsPrompt) →
       e ∈ runSession first second books →
       ∃ d, finalDataOf first second = some d ∧ d.status = some "ok" ∧
         ∃ t, d.title = some t ∧ t ≠ "")
  ∧ (∀ raw, first = .neither raw →
       runSession first second books = [.printedRaw raw])
  ∧ (∀ fn a raw, first = .toolCall fn a → second = .unparseable raw →
       runSession first second books = [.printedRaw raw])
  ∧ (∀ d, finalDataOf first second = some d → d.status = some "no_match" →
       Event.imagePrompt ∉ runSession first second books ∧
       Event.ttsPrompt ∉ runSession first second books) := by
  have hguard : ∀ d : RecData, mediaGuard d = true →
      d.status = some "ok" ∧ ∃ t, d.title = some t ∧ t ≠ "" := by
    intro d hg
    obtain ⟨hs, ht⟩ := Bool.and_eq_true .. ▸ hg
    refine ⟨by simpa using hs, ?_⟩
    cases hti : d.title with
    | none => rw [hti] at ht; simp at ht
    | some t => exact ⟨t, rfl, by rw [hti] at ht; simpa using ht⟩
  refine ⟨?_, ?_, ?_, ?_⟩
  · intro e he hmem
    cases first with
    | neither raw =>
      simp only [runSession, List.mem_singleton] at hmem
      rcases he with he | he <;> (subst he; simp at hmem)
    | directJson d =>
      refine ⟨d, rfl, ?_⟩
      cases hg : mediaGuard d with
      | true => exact hguard d hg
      | false =>
        rw [runSession, hg] at hmem
        simp only [if_false, List.mem_cons, List.not_mem_nil, or_false] at hmem
        rcases he with he | he <;> (subst he; exact absurd hmem (by simp))
    | toolCall fn a =>
      cases second with
      | unparseable raw =>
        simp only [runSession, List.mem_singleton] at hmem
        rcases he with he | he <;> (subst he; simp at hmem)
      | parsed d =>
        refine ⟨d, rfl, ?_⟩
        cases hg : mediaGuard d with
        | true => exact hguard d hg
        | false =>
          rw [runSession, hg] at hmem
          simp only [if_false, List.mem_cons, List.not_mem_nil, or_false] at hmem
          rcases he with he | he <;> (subst he; exact absurd hmem (by simp))
  · intro raw h; subst h; rfl
  · intro fn a raw h1 h2; subst h1; subst h2; rfl
  · intro d hd hnm
    have hg : mediaGuard d = false := by
      simp [mediaGuard, hnm]
    cases first with
    | neither raw => cases second <;> simp [finalDataOf] at hd
    | directJson d0 =>
      have : d0 = d := by cases second <;> simpa [finalDataOf] using hd
      subst this
      simp [runSession, hg]
    | toolCall fn a =>
      cases second with
      | unparseable raw => simp [finalDataOf] at hd
      | parsed d0 =>
        have : d0 = d := by simpa [finalDataOf] using hd
        subst this
        simp [runSession, hg]

/-- C7 witness: an unparseable final output prints the raw text and
prompts nothing, and a parsed "no_match" result prompts nothing. -/
theorem media_gate_c7_witness :
    runSession (.toolCall "get_summary_by_title" (some "Dune"))
        (.unparseable "oops") books0 = [.printedRaw "oops"]
  ∧ (Event.imagePrompt ∉ runSession (.directJson ⟨some "no_match", none, none, none⟩)
        (.parsed ⟨none, none, none, none⟩) books0 ∧
     Event.ttsPrompt ∉ runSession (.directJson ⟨some "no_match", none, none, none⟩)
        (.parsed ⟨none, none, none, none⟩) books0) :=
  ⟨(media_gate_c7 (.toolCall "get_summary_by_title" (some "Dune"))
      (.unparseable "oops") books0).2.2.1 "get_summary_by_title" (some "Dune")
      "oops" rfl rfl,
   (media_gate_c7 (.directJson ⟨some "no_match", none, none, none⟩)
      (.parsed ⟨none, none, none, none⟩) books0).2.2.2
      ⟨some "no_match", none, none, none⟩ rfl rfl⟩

/-- Every binding after a dict assignment is an old binding or the new one. -/
theorem dictInsert_mem (books : PBooks) (k : PKey) (v : PEntry) :
    ∀ ke ∈ dictInsert books k v, ke ∈ books ∨ ke = (k, v) := by
  induction books with
  | nil => intro ke h; simp [dictInsert] at h; exact .inr h
  | cons b rest ih =>
    intro ke h
    obtain ⟨k0, v0⟩ := b
    by_cases hk : k0 = k
    · simp only [dictInsert, if_pos hk] at h
      rcases List.mem_cons.mp h with h0 | h0
      · exact .inr h0
      · exact .inl (List.mem_cons_of_mem _ h0)
    · simp only [dictInsert, if_neg hk] at h
      rcases List.mem_cons.mp h with h0 | h0
      · exact .inl (h0 ▸ List.mem_cons_self _ _)
      · rcases ih ke h0 with h1 | h1
        · exact .inl (List.mem_cons_of_mem _ h1)
        · exact .inr h1

/-- A dict assignment grows the dict by at most one binding. -/
theorem dictInsert_length (books : PBooks) (k : PKey) (v : PEntry) :
    (dictInsert books k v).length ≤ books.length + 1 := by
  induction books with
  | nil => simp [dictInsert]
  | cons b rest ih =>
    obtain ⟨k0, v0⟩ := b
    by_cases hk : k0 = k
    · simp [dictInsert, if_pos hk]
    · simp only [dictInsert, if_neg hk, List.length_cons]
      omega

/-- The key a truthy title value becomes is itself truthy. -/
theorem keyTruthy_of_toKey (t : JsonVal) (k : PKey)
    (ht : truthy t = true) (hk : toKey t = some k) : keyTruthy k = true := by
  cases t with
  | str s =>
    obtain rfl : PKey.str s = k := by simpa [toKey] using hk
    simpa [keyTruthy, truthy] using ht
  | num n =>
    obtain rfl : PKey.num n = k := by simpa [toKey] using hk
    simpa [keyTruthy, truthy] using ht
  | bool b =>
    obtain rfl : PKey.bool b = k := by simpa [toKey] using hk
    simpa [keyTruthy, truthy] using ht
  | null => simp [toKey] at hk
  | list xs => simp [toKey] at hk
  | obj fs => simp [toKey] at hk

/-- On a line that cannot raise, the loop body succeeds, adds only
truthy-titled bindings, and grows the dict only on a non-blank line. -/
theorem parseStep_ok (books : PBooks) (l : CatalogLine)
    (hg : goodLine l = true) :
    ∃ b, parseStep books l = .ok b
      ∧ (∀ ke ∈ b, ke ∈ books ∨ keyTruthy ke.1 = true)
      ∧ b.length ≤ books.length + (if isBlank l then 0 else 1) := by
  cases l with
  | blank => exact ⟨books, rfl, fun ke h => .inl h, by simp [isBlank]⟩
  | undecodable => exact ⟨books, rfl, fun ke h => .inl h, by simp [isBlank]⟩
  | decoded v =>
    cases v with
    | obj row =>
      cases hrt : rget row "title" with
      | none =>
        exact ⟨books, by simp [parseStep, hrt], fun ke h => .inl h,
          by simp [isBlank]⟩
      | some t =>
        cases htr : truthy t with
        | false =>
          exact ⟨books, by simp [parseStep, hrt, htr], fun ke h => .inl h,
            by simp [isBlank]⟩
        | true =>
          have hks : (toKey t).isSome = true := by
            have := hg
            simp only [goodLine, hrt, htr, Bool.not_true, Bool.false_or] at this
            exact this
          obtain ⟨k, hk⟩ := Option.isSome_iff_exists.mp hks
          refine ⟨dictInsert books k (entryOf row),
            by simp [parseStep, hrt, htr, hk], ?_, ?_⟩
          · intro ke hke
            rcases dictInsert_mem books k (entryOf row) ke hke with h | h
            · exact .inl h
            · exact .inr (by rw [h]; exact keyTruthy_of_toKey t k htr hk)
          · simpa [isBlank] using dictInsert_length books k (entryOf row)
    | str s => simp [goodLine] at hg
    | num n => simp [goodLine] at hg
    | bool b => simp [goodLine] at hg
    | null => simp [goodLine] at hg
    | list xs => simp [goodLine] at hg

/-- Unfolding of the non-blank-line count over one more line. -/
theorem countNonBlank_cons (l : CatalogLine) (ls : List CatalogLine) :
    countNonBlank (l :: ls)
      = (if isBlank l then 0 else 1) + countNonBlank ls := by
  cases hb : isBlank l <;> simp [countNonBlank, List.filter, hb, Nat.add_comm]

/-- The whole loop of `parse_json` on a file of lines that cannot raise:
it succeeds, every binding it adds has a truthy key, and it adds at most
one binding per non-blank line. -/
theorem parseLines_ok (lines : List CatalogLine) :
    ∀ books, (∀ l ∈ lines, goodLine l = true) →
      ∃ r, parseLines books lines = .ok r
        ∧ (∀ ke ∈ r, ke ∈ books ∨ keyTruthy ke.1 = true)
        ∧ r.length ≤ books.length + countNonBlank lines := by
  induction lines with
  | nil =>
    exact fun books _ => ⟨books, rfl, fun ke h => .inl h,
      by simp [countNonBlank]⟩
  | cons l ls ih =>
    intro books hg
    obtain ⟨b, hb, hmem, hlen⟩ := parseStep_ok books l (hg l (by simp))
    obtain ⟨r, hr, hmem2, hlen2⟩ := ih b (fun x hx => hg x (by simp [hx]))
    refine ⟨r, by simp [parseLines, hb, hr], ?_, ?_⟩
    · intro ke hke
      rcases hmem2 ke hke with h | h
      · exact hmem ke h
      · exact .inr h
    · rw [countNonBlank_cons]
      cases hbl : isBlank l <;> (rw [hbl] at hlen; omega)

/-- C1 (amended): for every catalog file that can be opened in which
every line that decodes as JSON decodes to a JSON object whose truthy
title value (if any) is a hashable scalar, `parse_json` returns a
mapping in which every entry's title is truthy — in particular a string
title is non-empty; blank lines, undecodable lines and records lacking a
(truthy) title field contribute no entry; and the number of entries
never exceeds the number of non-blank lines. -/
theorem parse_json_c1 (lines : List CatalogLine)
    (h : ∀ l ∈ lines, goodLine l = true) :
    parse_json lines = .ok (okBooks lines)
  ∧ (∀ ke ∈ okBooks lines, keyTruthy ke.1 = true)
  ∧ (okBooks lines).length ≤ countNonBlank lines
  ∧ (∀ books, parseStep books .blank = .ok books)
  ∧ (∀ books, parseStep books .undecodable = .ok books)
  ∧ (∀ books row, rget row "title" = none →
       parseStep books (.decoded (.obj row)) = .ok books)
  ∧ (∀ books row t, rget row "title" = some t → truthy t = false →
       parseStep books (.decoded (.obj row)) = .ok books) := by
  obtain ⟨r, hr, hmem, hlen⟩ := parseLines_ok lines [] h
  have hok : parse_json lines = .ok r := hr
  have hob : okBooks lines = r := by simp [okBooks, hok]
  refine ⟨by rw [hob]; exact hok, ?_, ?_, fun _ => rfl, fun _ => rfl, ?_, ?_⟩
  · rw [hob]
    intro ke hke
    rcases hmem ke hke with h2 | h2
    · simp at h2
    · exact h2
  · rw [hob]; simpa using hlen
  · intro books row hr2; simp [parseStep, hr2]
  · intro books row t hr2 ht; simp [parseStep, hr2, ht]

/-- C1 counterexample: a catalog file whose only line decodes to the
JSON value `[]` can be opened, yet `parse_json` raises `AttributeError`
(`row.get` on a list) instead of returning a mapping, contradicting the
claim's universal quantification over catalog files. -/
theorem parse_json_c1_counterexample :
    parse_json [CatalogLine.decoded (JsonVal.list [])]
      = .error .attributeError
  ∧ ∀ books : PBooks,
      parse_json [CatalogLine.decoded (JsonVal.list [])] ≠ .ok books :=
  ⟨rfl, fun books h => by simp [parse_json, parseLines, parseStep] at h⟩

/-- A concrete well-formed catalog file: a blank line, an undecodable
line, one full record and one record with no title field. -/
def lines0 : List CatalogLine :=
  [.blank,
   .undecodable,
   .decoded (.obj [("title", .str "Dune"),
                   ("summary_short", .str "A desert planet saga."),
                   ("themes", .list [.str "scifi"])]),
   .decoded (.obj [("note", .null)])]

/-- C1 witness: the amended claim evaluated on the concrete file. -/
theorem parse_json_c1_witness :
    parse_json lines0 = .ok (okBooks lines0)
  ∧ (∀ ke ∈ okBooks lines0, keyTruthy ke.1 = true)
  ∧ (okBooks lines0).length ≤ countNonBlank lines0
  ∧ (∀ books, parseStep books .blank = .ok books)
  ∧ (∀ books, parseStep books .undecodable = .ok books)
  ∧ (∀ books row, rget row "title" = none →
       parseStep books (.decoded (.obj row)) = .ok books)
  ∧ (∀ books row t, rget row "title" = some t → truthy t = false →
       parseStep books (.decoded (.obj row)) = .ok books) :=
  parse_json_c1 lines0 (by decide)

/-- Whether a JSON value is a list (`isinstance(v, list)`). -/
def JsonVal.isList : JsonVal → Bool
  | .list _ => true
  | _ => false

/-- C9 (amended): for a catalog record with a truthy hashable title, a
themes field holding a truthy non-list value loads as the single-element
list of that value's string form; a themes field that is absent — or
present but falsy (for example `0`, `""`, `null` or `false`) — loads as
the empty list. -/
theorem parse_json_c9 (row : List (String × JsonVal)) (t : JsonVal) (k : PKey)
    (ht : rget row "title" = some t) (htr : truthy t = true)
    (hk : toKey t = some k) :
    parse_json [.decoded (.obj row)] = .ok [(k, entryOf row)]
  ∧ (∀ w, rget row "themes" = some w → truthy w = true →
       w.isList = false → themesOf row = [.str (pyStr w)])
  ∧ (∀ w, rget row "themes" = some w → truthy w = false →
       themesOf row = [])
  ∧ (rget row "themes" = none → themesOf row = []) := by
  refine ⟨?_, ?_, ?_, ?_⟩
  · simp [parse_json, parseLines, parseStep, ht, htr, hk, dictInsert]
  · intro w hw hwt hwl
    cases w with
    | list xs => simp [JsonVal.isList] at hwl
    | null => simp [truthy] at hwt
    | str s => simp [themesOf, hw, hwt]
    | num n => simp [themesOf, hw, hwt]
    | bool b => simp [themesOf, hw, hwt]
    | obj fs => simp [themesOf, hw, hwt]
  · intro w hw hwt; simp [themesOf, hw, hwt]
  · intro hw; simp [themesOf, hw]

/-- C9 counterexample: the record `{"title": "T", "themes": 0}` has a
themes field that is not a list, yet the loaded entry's themes is the
empty list, not the single-element list `[str(0)]` the claim requires. -/
theorem parse_json_c9_counterexample :
    parse_json [.decoded (.obj [("title", JsonVal.str "T"),
                                ("themes", JsonVal.num 0)])]
      = .ok [(.str "T", (.null, []))]
  ∧ (JsonVal.num 0).isList = false
  ∧ ([] : List JsonVal) ≠ [JsonVal.str (pyStr (JsonVal.num 0))] :=
  ⟨rfl, rfl, by simp⟩

/-- C9 witness: the amended claim on a truthy non-list themes value and
on a record with no themes field. -/
theorem parse_json_c9_witness :
    parse_json [.decoded (.obj [("title", JsonVal.str "T"),
                                ("themes", JsonVal.str "dark")])]
      = .ok [(.str "T", entryOf [("title", JsonVal.str "T"),
                                 ("themes", JsonVal.str "dark")])]
  ∧ themesOf [("title", JsonVal.str "T"), ("themes", JsonVal.str "dark")]
      = [JsonVal.str (pyStr (JsonVal.str "dark"))]
  ∧ themesOf [("title", JsonVal.str "U")] = [] := by
  have ha := parse_json_c9
      [("title", JsonVal.str "T"), ("themes", JsonVal.str "dark")]
      (JsonVal.str "T") (PKey.str "T") rfl (by decide) rfl
  have hb := parse_json_c9 [("title", JsonVal.str "U")]
      (JsonVal.str "U") (PKey.str "U") rfl (by decide) rfl
  exact ⟨ha.1, ha.2.1 (JsonVal.str "dark") rfl (by decide) rfl, hb.2.2.2 rfl⟩

/-- Every character the substitution emits is a kept character or the
underscore, hence allowed. -/
theorem mem_collapseAux (l : List Char) :
    ∀ b c, c ∈ collapseAux b l → allowedChar c = true := by
  induction l with
  | nil => intro b c h; simp [collapseAux] at h
  | cons d rest ih =>
    intro b c h
    by_cases hd : allowedChar d = true
    · rw [collapseAux, if_pos hd] at h
      rcases List.mem_cons.mp h with h0 | h0
      · exact h0 ▸ hd
      · exact ih false c h0
    · rw [collapseAux, if_neg hd] at h
      cases b with
      | true => exact ih true c (by simpa using h)
      | false =>
        simp only [Bool.false_eq_true, if_false] at h
        rcases List.mem_cons.mp h with h0 | h0
        · subst h0; rfl
        · exact ih true c h0

/-- The substitution leaves a string of allowed characters unchanged. -/
theorem collapseAux_of_allowed (l : List Char)
    (h : ∀ c ∈ l, allowedChar c = true) : collapseAux false l = l := by
  induction l with
  | nil => rfl
  | cons d rest ih =>
    rw [collapseAux, if_pos (h d (by simp))]
    exact congrArg (d :: ·) (ih (fun c hc => h c (by simp [hc])))

/-- Dropping a leading run keeps only original characters. -/
theorem mem_of_mem_dropWhile (p : Char → Bool) (l : List Char) :
    ∀ c ∈ l.dropWhile p, c ∈ l := by
  induction l with
  | nil => intro c h; simp at h
  | cons d rest ih =>
    intro c h
    by_cases hd : p d = true
    · rw [List.dropWhile_cons, if_pos hd] at h
      exact List.mem_cons_of_mem _ (ih c h)
    · rw [List.dropWhile_cons, if_neg hd] at h
      exact h

/-- Dropping a trailing run keeps only original characters. -/
theorem mem_of_mem_dropTrail (p : Char → Bool) (l : List Char) :
    ∀ c ∈ dropTrail p l, c ∈ l := by
  induction l with
  | nil => intro c h; simp [dropTrail] at h
  | cons d rest ih =>
    intro c h
    rw [dropTrail] at h
    by_cases hc : (dropTrail p rest = [] && p d) = true
    · rw [if_pos hc] at h; simp at h
    · rw [if_neg hc] at h
      rcases List.mem_cons.mp h with h0 | h0
      · exact h0 ▸ List.mem_cons_self _ _
      · exact List.mem_cons_of_mem _ (ih c h0)

/-- The head surviving a leading drop fails the predicate. -/
theorem dropWhile_headI_false (p : Char → Bool) (l : List Char)
    (h : l.dropWhile p ≠ []) : p (l.dropWhile p).headI = false := by
  induction l with
  | nil => simp at h
  | cons d rest ih =>
    by_cases hd : p d = true
    · rw [List.dropWhile_cons, if_pos hd] at h ⊢
      exact ih h
    · rw [List.dropWhile_cons, if_neg hd]
      simpa using hd

/-- A nonempty trailing drop keeps the head. -/
theorem dropTrail_headI (p : Char → Bool) (l : List Char)
    (h : dropTrail p l ≠ []) : (dropTrail p l).headI = l.headI := by
  cases l with
  | nil => rfl
  | cons d rest =>
    rw [dropTrail] at h ⊢
    by_cases hc : (dropTrail p rest = [] && p d) = true
    · exact absurd (if_pos hc) h
    · rw [if_neg hc]; rfl

/-- A leading drop does nothing when the head fails the predicate. -/
theorem dropWhile_eq_self_of_headI (p : Char → Bool) (l : List Char)
    (h : p l.headI = false) : l.dropWhile p = l := by
  cases l with
  | nil => rfl
  | cons d rest => rw [List.dropWhile_cons, if_neg (by simpa using h)]

/-- A trailing drop does nothing when the last character fails the
predicate. -/
theorem dropTrail_eq_self_of_getLast (p : Char → Bool) (l : List Char)
    (h : ∀ c, l.getLast? = some c → p c = false) : dropTrail p l = l := by
  induction l with
  | nil => rfl
  | cons d rest ih =>
    cases rest with
    | nil =>
      have hd : p d = false := h d rfl
      rw [dropTrail]
      simp [dropTrail, hd]
    | cons e rest2 =>
      have hr : dropTrail p (e :: rest2) = e :: rest2 := by
        exact ih (fun c hc => h c (by rw [List.getLast?_cons_cons]; exact hc))
      rw [dropTrail, hr]
      simp

/-- Truncation does not change a list's head. -/
theorem headI_take (l : List Char) (k : Nat) (hk : k ≠ 0) :
    (l.take k).headI = l.headI := by
  cases l with
  | nil => simp
  | cons d rest =>
    cases k with
    | zero => exact absurd rfl hk
    | succ j => rfl

/-- A run of disallowed characters vanishes inside a replacement run. -/
theorem collapseAux_true_forbidden (l : List Char)
    (h : ∀ c ∈ l, allowedChar c = false) : collapseAux true l = [] := by
  induction l with
  | nil => rfl
  | cons d rest ih =>
    rw [collapseAux, if_neg (by simp [h d (by simp)])]
    simp only [if_pos rfl]
    exact ih (fun c hc => h c (by simp [hc]))

/-- A nonempty all-disallowed string collapses to one underscore. -/
theorem collapseAux_false_forbidden (d : Char) (rest : List Char)
    (h : ∀ c ∈ d :: rest, allowedChar c = false) :
    collapseAux false (d :: rest) = ['_'] := by
  rw [collapseAux, if_neg (by simp [h d (by simp)])]
  simp only [Bool.false_eq_true, if_false]
  exact congrArg ('_' :: ·) (collapseAux_true_forbidden rest
    (fun c hc => h c (by simp [hc])))

/-- The slug of the fallback word is itself. -/
theorem slug_output : _safe_slug "output" = "output" := by decide

/-- Applying the slug twice equals applying it once, provided the single
application does not end in an underscore (the only exception, produced
when the 60-character cap cuts right after a replaced run). -/
theorem slug_idem (s : String)
    (h : (_safe_slug s).toList.getLast? ≠ some '_') :
    _safe_slug (_safe_slug s) = _safe_slug s := by
  by_cases hE : (stripUnderscores (collapseAux false s.toList)).take 60 = []
  · have hs : _safe_slug s = "output" := by rw [_safe_slug, hE]; rfl
    rw [hs]; exact slug_output
  · have hs : _safe_slug s
        = String.mk ((stripUnderscores (collapseAux false s.toList)).take 60) := by
      rw [_safe_slug, if_neg hE]
    set r := (stripUnderscores (collapseAux false s.toList)).take 60 with hrdef
    have htl : (String.mk r).toList = r := rfl
    have hall : ∀ c ∈ r, allowedChar c = true := by
      intro c hc
      have h1 : c ∈ stripUnderscores (collapseAux false s.toList) :=
        (List.take_sublist 60 _).subset hc
      have h2 : c ∈ collapseAux false s.toList := by
        rw [stripUnderscores] at h1
        exact mem_of_mem_dropWhile _ _ c (mem_of_mem_dropTrail _ _ c h1)
      exact mem_collapseAux _ false c h2
    have hcol : collapseAux false r = r := collapseAux_of_allowed r hall
    -- the head of `r` is not an underscore
    have hm : stripUnderscores (collapseAux false s.toList) ≠ [] := by
      intro h0; rw [hrdef, h0] at hE; exact hE rfl
    have hy : (collapseAux false s.toList).dropWhile (fun c => c == '_') ≠ [] := by
      intro h0
      rw [stripUnderscores, h0] at hm
      exact hm rfl
    have hheadm : ((stripUnderscores (collapseAux false s.toList)).headI == '_')
        = false := by
      rw [stripUnderscores,
        dropTrail_headI (fun c => c == '_') _ (by rw [← stripUnderscores]; exact hm)]
      exact dropWhile_headI_false (fun c => c == '_') _ hy
    have hheadr : (r.headI == '_') = false := by
      rw [hrdef, headI_take _ 60 (by decide)]
      exact hheadm
    -- the last character of `r` is not an underscore
    have hlast : ∀ c, r.getLast? = some c → (c == '_') = false := by
      intro c hc
      have : c ≠ '_' := by
        intro h0
        rw [hs, htl] at h
        exact h (h0 ▸ hc)
      simpa using this
    -- so stripping `r` again changes nothing
    have hstrip : stripUnderscores r = r := by
      rw [stripUnderscores, dropWhile_eq_self_of_headI _ _ hheadr]
      exact dropTrail_eq_self_of_getLast _ _ hlast
    have hlen : r.length ≤ 60 := by
      rw [hrdef, List.length_take]
      exact Nat.min_le_left _ _
    have htake : r.take 60 = r := List.take_of_length_le hlen
    have hrne : r ≠ [] := by
      intro h0; rw [hrdef] at h0; exact hE h0
    rw [hs]
    rw [_safe_slug, htl, hcol, hstrip, htake, if_neg hrne]

/-- C5 (corrected): the slug of an input consisting only of forbidden
characters is the literal fallback "output"; every slug has length at
most 60; and slugification is idempotent for every input whose slug does
not end in an underscore — a second application strips the trailing
underscore the 60-character cap can leave behind, so unrestricted
idempotence fails. -/
theorem safe_slug_c5 (s : String) :
    ((_safe_slug s).toList.getLast? ≠ some '_' →
       _safe_slug (_safe_slug s) = _safe_slug s)
  ∧ ((∀ c ∈ s.toList, allowedChar c = false) → _safe_slug s = "output")
  ∧ (_safe_slug s).length ≤ 60 := by
  refine ⟨slug_idem s, ?_, ?_⟩
  · intro h
    cases hl : s.toList with
    | nil => rw [_safe_slug, hl]; rfl
    | cons d rest =>
      rw [_safe_slug, hl, collapseAux_false_forbidden d rest (hl ▸ h)]
      rfl
  · rw [_safe_slug]
    by_cases hE : (stripUnderscores (collapseAux false s.toList)).take 60 = []
    · rw [if_pos hE]; decide
    · rw [if_neg hE]
      have : (String.mk ((stripUnderscores (collapseAux false s.toList)).take 60)).length
          = ((stripUnderscores (collapseAux false s.toList)).take 60).length := rfl
      rw [this, List.length_take]
      exact Nat.min_le_left _ _

set_option maxRecDepth 4000 in
/-- C5 counterexample: on fifty-nine letters followed by "!b" the cap
cuts right after the replaced "!", the slug ends in an underscore, and a
second application strips it — the claimed unconditional idempotence
fails. -/
theorem safe_slug_c5_counterexample :
    _safe_slug (_safe_slug (String.mk (List.replicate 59 'a' ++ ['!', 'b'])))
      ≠ _safe_slug (String.mk (List.replicate 59 'a' ++ ['!', 'b'])) := by
  decide

/-- C5 witness: the amended claim on concrete inputs — a slug not ending
in an underscore is a fixed point, an all-forbidden input falls back to
"output", and the cap bounds the length. -/
theorem safe_slug_c5_witness :
    _safe_slug (_safe_slug "Hello World!") = _safe_slug "Hello World!"
  ∧ _safe_slug "?!*" = "output"
  ∧ (_safe_slug "Hello World!").length ≤ 60 :=
  ⟨(safe_slug_c5 "Hello World!").1 (by decide),
   (safe_slug_c5 "?!*").2.1 (by decide),
   (safe_slug_c5 "Hello World!").2.2⟩
